import Mathlib

/-!
# chaos-client: the runner (internal/runner/runner.go)

A shallow embedding of `RunEnumeration`, `processDomain`, `processBBQDomain`
and `processList`.  Go strings and byte slices are Lean strings, a character
standing for a byte.  The API
client, the file system, standard input, the JSON decoder and the
filter/projector are read-only oracles gathered in `Env`; what the process
changes (standard output, the created output file, the log, the sequence of
client calls, the handles the line scanner reads) is the `World`.
`gologger.Fatalf` and a Go runtime panic stop the run: they are the error
side of `Run`.
-/

namespace ChaosClient

/-! ## fmt.Sprintf with a format and no operands -/

/-- The flag characters that fmt.doPrintf skips after a percent sign. -/
def isFlag (c : Char) : Bool := c = '#' || c = '0' || c = '+' || c = '-' || c = ' '

/-- The digit loop of fmt.parsenum: whether a number was read and the text after
it.  A value beyond 1e6 abandons the number and jumps to the end of the text. -/
def parsenum (num : Nat) (isnum : Bool) : List Char → Bool × List Char
  | [] => (isnum, [])
  | c :: cs =>
    if c.isDigit then
      if num > 1000000 then (false, [])
      else parsenum (num * 10 + (c.toNat - 48)) true cs
    else (isnum, c :: cs)

/-- The function fmt.parseArgNumber on the text after an opening bracket:
whether a well-formed index [n] was read, and the text after it. -/
def parseArgNumber (rest : List Char) : Bool × List Char :=
  if rest.length < 2 then (false, rest)
  else
    match rest.span (fun c => c != ']') with
    | (inner, _ :: after) =>
      let r := parsenum 0 false inner
      (r.1 && r.2.isEmpty, after)
    | (_, []) => (false, rest)

/-- The method argNumber of fmt with no operands: an index in brackets is
always out of range, so it clears goodArgNum; the results are the new
goodArgNum, afterIndex and the remaining text. -/
def argNumber (good : Bool) : List Char → Bool × Bool × List Char
  | '[' :: rest =>
    let r := parseArgNumber rest
    (false, r.1, r.2)
  | s => (good, false, s)

/-- One directive of fmt.doPrintf, from the character after the percent sign,
with no operands: the text it prints and the format left to process (none when
the format ended without a verb).  A period opens a precision only when a
character follows it (the test i+1 < end); a period that ends the format is the
verb. -/
def directive (s : List Char) : List Char × Option (List Char) :=
  let s1 := s.dropWhile isFlag
  let (g2, after2, s2) := argNumber true s1
  -- width
  let (out3, g3, after3, s3) :=
    match s2 with
    | '*' :: r => ("%!(BADWIDTH)".data, g2, false, r)
    | _ =>
      let r := parsenum 0 false s2
      ([], g2 && !(after2 && r.1), after2, r.2)
  -- precision
  let (out4, g4, after4, s4) :=
    match s3 with
    | '.' :: c :: r1 =>
      let (g, after, r2) := argNumber (g3 && !after3) (c :: r1)
      match r2 with
      | '*' :: r3 => ("%!(BADPREC)".data, g, false, r3)
      | _ => ([], g, after, (parsenum 0 false r2).2)
    | _ => ([], g3, after3, s3)
  let (g5, _, s5) := if after4 then (g4, after4, s4) else argNumber g4 s4
  match s5 with
  | [] => (out3 ++ out4 ++ "%!(NOVERB)".data, none)
  | verb :: rest =>
    if verb = '%' then (out3 ++ out4 ++ ['%'], some rest)
    else if !g5 then (out3 ++ out4 ++ "%!".data ++ [verb] ++ "(BADINDEX)".data, some rest)
    else (out3 ++ out4 ++ "%!".data ++ [verb] ++ "(MISSING)".data, some rest)

/-- The loop of fmt.doPrintf with no operands: text outside directives is
copied, each directive prints what directive says.  The first argument bounds
the number of steps; every step consumes a character. -/
def doPrintf : Nat → List Char → List Char
  | 0, _ => []
  | _ + 1, [] => []
  | fuel + 1, c :: cs =>
    if c = '%' then
      match directive cs with
      | (out, some rest) => out ++ doPrintf fuel rest
      | (out, none) => out
    else c :: doPrintf fuel cs

/-- The call fmt.Sprintf(format) with a format and no operands. -/
def Sprintf (format : String) : String :=
  String.mk (doPrintf (format.length + 1) format.data)

/-! ## Data of the client package and of the options -/

/-- Modelled from the spec: the request record chaos.SubdomainsRequest, whose
fields Domain and OutputFormat are the ones runner.go assigns. -/
structure SubdomainsRequest where
  Domain : String
  OutputFormat : String
deriving DecidableEq

/-- Modelled from the spec: one item of the stream returned by GetSubdomains
(chaos.Result).  Reader is a pointer in Go: none is the nil pointer, some p a
reader that yields the raw payload p.  Error none is the nil error. -/
structure Result where
  Subdomain : String
  Reader : Option String
  Error : Option String
deriving DecidableEq

/-- Modelled from the spec: one item of the stream returned by
GetBBQSubdomains (chaos.BBQResult): the bytes Data to decode, the raw reader
and the error slot. -/
structure BBQResult where
  Data : String
  Reader : Option String
  Error : Option String
deriving DecidableEq

/-- Modelled from the spec: chaos.BBQData, a structured record with named
fields, kept as the list of its (field name, value) pairs. -/
abbrev BBQData := List (String × String)

/-- Modelled from the spec: the filter specification held in opts.filter, field
and value predicates together with the selector of the output field. -/
structure Filter where
  predicates : List (String × String)
  output : String
deriving DecidableEq

/-- The writers that io.MultiWriter combines at line 59. -/
inductive Sink where
  | stdout
  | outputFile
deriving DecidableEq

/-- Modelled from the spec: the Options record, with the fields runner.go
reads and writes.  outputFile is none while the handle is nil and some path
once os.Create returned it; outputWriter is none while the writer is nil and
some ws once io.MultiWriter(ws...) was assigned. -/
structure Options where
  APIKey : String
  Domain : String
  DomainsFile : String
  Update : String
  Output : String
  JSONOutput : Bool
  BBQ : Bool
  Count : Bool
  filter : Filter
  outputFile : Option String
  outputWriter : Option (List Sink)
deriving DecidableEq

/-! ## The environment and the world -/

/-- Where an upload takes its contents from. -/
inductive UploadSource where
  | stdin
  | file (path : String)
deriving DecidableEq

/-- A call into the API client, in the order runner.go makes them. -/
inductive Call where
  | PutSubdomains (src : UploadSource) (contents : String)
  | GetStatistics (domain : String)
  | GetSubdomains (req : SubdomainsRequest)
  | GetBBQSubdomains (req : SubdomainsRequest)
deriving DecidableEq

/-- The three workflows a client call belongs to. -/
inductive Family where
  | upload
  | count
  | enumerate
deriving DecidableEq

/-- The workflow of a client call. -/
def Call.family : Call → Family
  | .PutSubdomains _ _ => .upload
  | .GetStatistics _ => .count
  | .GetSubdomains _ => .enumerate
  | .GetBBQSubdomains _ => .enumerate

/-- The value of the variable file that processList hands to bufio.NewScanner:
os.Stdin, the opened domains file, or the unassigned (nil) handle. -/
inductive Handle where
  | stdin
  | file (path : String)
  | unassigned
deriving DecidableEq

/-- Everything the run reads but does not change.  stdin is some contents when
hasStdin() holds and none otherwise; openFile is os.Open followed by reading
the file; createFile gives the error of os.Create, if any; fileWriteErr is the
error every write to the created output file reports, if any (writes to
standard output succeed); the client fields are the answers of the API client,
which answers a request the same way each time it is made;
unmarshal is json.Unmarshal into a BBQData; applyFilter and extractOutput are
the functions of the same names, which runner.go calls and does not define. -/
structure Env where
  stdin : Option String
  openFile : String → Except String String
  createFile : String → Option String
  fileWriteErr : Option String
  putSubdomains : String → Option String
  getStatistics : String → Except String Nat
  getSubdomains : SubdomainsRequest → List Result
  getBBQSubdomains : SubdomainsRequest → List BBQResult
  unmarshal : String → Except String BBQData
  applyFilter : BBQData → Filter → Bool
  extractOutput : BBQData → Filter → String

/-- Modelled from the spec: opts.hasStdin(), true when standard input is a pipe
or a redirected file. -/
def Env.hasStdin (env : Env) : Bool := env.stdin.isSome

/-- The bytes standard input yields when it is read to its end. -/
def Env.stdinContents (env : Env) : String := env.stdin.getD ""

/-- What the run changes: the text on standard output, the bytes in the created
output file, the messages of gologger.Infof, the client calls made so far and
the handles the line scanner was created on. -/
structure World where
  stdout : String
  outFile : String
  log : List String
  calls : List Call
  scanned : List Handle
deriving DecidableEq

/-- The world at process start. -/
def World.init : World :=
  { stdout := "", outFile := "", log := [], calls := [], scanned := [] }

/-- How a run stops before its function returns: gologger.Fatalf (message, then
exit status 1) or a runtime panic. -/
inductive Halt where
  | fatal (msg : String)
  | panic (msg : String)
deriving DecidableEq

/-- A stopped run: the world at that moment and the reason. -/
structure Stopped where
  world : World
  halt : Halt
deriving DecidableEq

/-- The result of running a function of runner.go: it returned in a world, or
the process stopped. -/
abbrev Run := Except Stopped World

/-- The world a run ends in, whether it returned or stopped. -/
def Run.world : Run → World
  | .ok w => w
  | .error s => s.world

/-- The text gologger emits for a message: the message, already formatted with
its operands, is formatted a second time as a format without operands. -/
def gologgerText (msg : String) : String := Sprintf msg

/-- The call gologger.Fatalf with its message formatted: the diagnostic, then
the process exits. -/
def Fatalf (w : World) (msg : String) : Run :=
  .error { world := w, halt := .fatal (gologgerText msg) }

/-- The call gologger.Silentf with its message formatted: the text goes to
standard output. -/
def Silentf (w : World) (text : String) : World :=
  { w with stdout := w.stdout ++ gologgerText text }

/-- The call gologger.Infof with its message formatted: the text goes to the
log. -/
def Infof (w : World) (msg : String) : World := { w with log := w.log ++ [gologgerText msg] }

/-- Record a client call. -/
def World.call (w : World) (c : Call) : World := { w with calls := w.calls ++ [c] }

/-- The Write method of io.MultiWriter: the writers are written in order and the
first error ends the call. -/
def multiWrite (env : Env) : List Sink → String → World → World × Option String
  | [], _, w => (w, none)
  | .stdout :: ss, p, w => multiWrite env ss p { w with stdout := w.stdout ++ p }
  | .outputFile :: ss, p, w =>
    match env.fileWriteErr with
    | some e => (w, some e)
    | none => multiWrite env ss p { w with outFile := w.outFile ++ p }

/-- The size of the buffer io.Copy reads into. -/
def copyBufferSize : Nat := 32 * 1024

/-- The loop of io.Copy: the data is read and written in chunks of at most
copyBufferSize bytes, and the first write that fails ends the copy.  The first
argument bounds the number of rounds; every round consumes a byte. -/
def copyChunks (env : Env) (ws : List Sink) : Nat → List Char → World → World
  | 0, _, w => w
  | _ + 1, [], w => w
  | fuel + 1, c :: cs, w =>
    match multiWrite env ws (String.mk ((c :: cs).take copyBufferSize)) w with
    | (w1, some _) => w1
    | (w1, none) => copyChunks env ws fuel ((c :: cs).drop copyBufferSize) w1

/-- The statement io.Copy(opts.outputWriter, *item.Reader), whose results are
discarded: a nil Reader panics at the dereference, a nil writer at the first
write of a non-empty payload. -/
def ioCopy (env : Env) (dst : Option (List Sink)) (src : Option String) (w : World) : Run :=
  match src with
  | none => .error { world := w, halt := .panic "nil pointer dereference" }
  | some p =>
    match dst with
    | none => if p = "" then .ok w else .error { world := w, halt := .panic "nil pointer dereference" }
    | some ws => .ok (copyChunks env ws p.length p.data w)

/-- The call fmt.Fprintf(opts.outputWriter, ...) with its text already
formatted: the world after the write and the error it returns, or a panic on a
nil writer. -/
def Fprintf (env : Env) (dst : Option (List Sink)) (text : String) (w : World) :
    Except Stopped (World × Option String) :=
  match dst with
  | none => .error { world := w, halt := .panic "nil pointer dereference" }
  | some ws => .ok (multiWrite env ws text w)

/-- A range loop over a closed channel: the items in order, the body run on
each, stopping when the process stops. -/
def forEach {α : Type} (body : World → α → Run) : List α → World → Run
  | [], w => .ok w
  | x :: xs, w =>
    match body w x with
    | .ok w1 => forEach body xs w1
    | .error s => .error s

/-! ## The functions of runner.go -/

/-- The request both processors build (lines 75-78 and 100-103). -/
def request (opts : Options) : SubdomainsRequest :=
  { Domain := opts.Domain, OutputFormat := if opts.JSONOutput then "json" else "" }

/-- The body of the loop of processDomain (lines 80-95) for one item. -/
def processDomainItem (env : Env) (opts : Options) (w : World) (item : Result) : Run :=
  match item.Error with
  | some e => Fatalf w ("Could not get subdomains: " ++ e ++ "\n")
  | none =>
    if opts.JSONOutput then ioCopy env opts.outputWriter item.Reader w
    else
      let w1 := if item.Subdomain ≠ "" then
          Silentf w (item.Subdomain ++ "." ++ opts.Domain ++ "\n") else w
      if opts.Output ≠ "" then
        match Fprintf env opts.outputWriter (item.Subdomain ++ "." ++ opts.Domain ++ "\n") w1 with
        | .error s => .error s
        | .ok (w2, some err) =>
          Fatalf w2 ("Could not write results to file " ++ opts.Output ++ " for "
            ++ opts.Domain ++ ": " ++ err ++ "\n")
        | .ok (w2, none) => .ok w2
      else .ok w1

/-- The function processDomain (lines 74-97). -/
def processDomain (env : Env) (opts : Options) (w : World) : Run :=
  forEach (processDomainItem env opts) (env.getSubdomains (request opts))
    (w.call (.GetSubdomains (request opts)))

/-- The body of the loop of processBBQDomain (lines 106-127) for one item. -/
def processBBQDomainItem (env : Env) (opts : Options) (w : World) (item : BBQResult) : Run :=
  match item.Error with
  | some e => Fatalf w ("Could not get subdomains: " ++ e ++ "\n")
  | none =>
    if opts.JSONOutput then ioCopy env opts.outputWriter item.Reader w
    else
      match env.unmarshal item.Data with
      | .error e => Fatalf w ("Could not unmarshal response: " ++ e ++ "\n")
      | .ok bbqdata =>
        if !env.applyFilter bbqdata opts.filter then .ok w
        else
          let outputLine := Sprintf (env.extractOutput bbqdata opts.filter)
          if outputLine ≠ "" then
            match Fprintf env opts.outputWriter (outputLine ++ "\n") w with
            | .error s => .error s
            | .ok (w2, some err) =>
              Fatalf w2 ("Could not write results to file " ++ opts.Output ++ " for "
                ++ opts.Domain ++ ": " ++ err ++ "\n")
            | .ok (w2, none) => .ok w2
          else .ok w

/-- The function processBBQDomain (lines 99-129). -/
def processBBQDomain (env : Env) (opts : Options) (w : World) : Run :=
  forEach (processBBQDomainItem env opts) (env.getBBQSubdomains (request opts))
    (w.call (.GetBBQSubdomains (request opts)))

/-- The choice between the two processors (lines 62-66 and 149-153). -/
def perDomain (env : Env) (opts : Options) (w : World) : Run :=
  if opts.BBQ then processBBQDomain env opts w else processDomain env opts w

/-- The constant bufio.MaxScanTokenSize. -/
def MaxScanTokenSize : Nat := 64 * 1024

/-- The function dropCR of bufio: one trailing carriage return is removed. -/
def dropCR (data : List Char) : List Char :=
  if data.getLast? = some '\r' then data.dropLast else data

/-- The tokens a bufio.Scanner with the split function ScanLines delivers: acc
holds, reversed, the bytes of the line being read.  A newline ends a line; at
the end of the data a non-empty rest is the last line; a line of
MaxScanTokenSize bytes or more ends the scan (ErrTooLong, which processList
does not look at). -/
def scanAux : List Char → List Char → List String
  | [], [] => []
  | [], acc => [String.mk (dropCR acc.reverse)]
  | c :: rest, acc =>
    if c = '\n' then String.mk (dropCR acc.reverse) :: scanAux rest []
    else if acc.length + 1 ≥ MaxScanTokenSize then []
    else scanAux rest (c :: acc)

/-- The lines in.Scan and in.Text deliver for the given contents. -/
def scanLines (contents : String) : List String := scanAux contents.data []

/-- The selection of the line source in processList (lines 136-144): the handle
and the lines read from it, or the fatal error of os.Open. -/
def listSource (env : Env) (opts : Options) : Except String (Handle × List String) :=
  if env.hasStdin then .ok (.stdin, scanLines env.stdinContents)
  else if opts.Update ≠ "" then
    match env.openFile opts.DomainsFile with
    | .error err => .error err
    | .ok contents => .ok (.file opts.DomainsFile, scanLines contents)
  else .ok (.unassigned, [])

/-- The function processList (lines 131-155).  Reading from the unassigned
handle fails at once, so the scanner delivers no line.  The assignment to
opts.Domain is the record update of each round. -/
def processList (env : Env) (opts : Options) (w : World) : Run :=
  match listSource env opts with
  | .error err => Fatalf w ("Could not open input file: " ++ err ++ "\n")
  | .ok (h, lines) =>
    forEach (fun w1 line => perDomain env { opts with Domain := line } w1) lines
      { w with scanned := w.scanned ++ [h] }

/-- The success message of the upload from standard input (line 21). -/
def inputProcessed : String :=
  "Input processed successfully and subdomains with valid records will be updated to chaos dataset."

/-- The success message of the upload from a file (line 34). -/
def fileProcessed : String :=
  "File processed successfully and subdomains with valid records will be updated to chaos dataset."

/-- The upload shared by lines 18-22 and 31-35: one PutSubdomains call, fatal on
its error, the success message otherwise. -/
def upload (env : Env) (src : UploadSource) (contents : String) (done : String) (w : World) : Run :=
  match env.putSubdomains contents with
  | some err => Fatalf (w.call (.PutSubdomains src contents)) ("Could not upload subdomains: " ++ err ++ "\n")
  | none => .ok (Infof (w.call (.PutSubdomains src contents)) done)

/-- Lines 49-59 of RunEnumeration: the output file is created when a path is
configured and the combined writer is assigned. -/
def openOutput (env : Env) (opts : Options) (w : World) : Except Stopped (Options × World) :=
  if opts.Output ≠ "" then
    match env.createFile opts.Output with
    | some err =>
      Except.error { world := w, halt := Halt.fatal (gologgerText ("Could not create file "
        ++ opts.Output ++ " for " ++ opts.Domain ++ ": " ++ err ++ "\n")) }
    | none =>
      .ok ({ opts with outputFile := some opts.Output, outputWriter := some [.stdout, .outputFile] },
           { w with outFile := "" })
  else .ok ({ opts with outputWriter := some [.stdout] }, w)

/-- Lines 61-71 of RunEnumeration: the single domain, then the list. -/
def enumerate (env : Env) (opts : Options) (w : World) : Run :=
  match (if opts.Domain ≠ "" then perDomain env opts w else .ok w) with
  | .error s => .error s
  | .ok w1 =>
    if env.hasStdin ∨ opts.DomainsFile ≠ "" then processList env opts w1 else .ok w1

/-- The function RunEnumeration (lines 15-72). -/
def RunEnumeration (env : Env) (opts : Options) (w : World) : Run :=
  if opts.Update = "" ∧ env.hasStdin then
    upload env .stdin env.stdinContents inputProcessed w
  else if opts.Update ≠ "-" then
    match env.openFile opts.Update with
    | .error err => Fatalf w ("Could not open input file: " ++ err ++ "\n")
    | .ok contents => upload env (.file opts.Update) contents fileProcessed w
  else if opts.Count then
    match env.getStatistics opts.Domain with
    | .error err =>
      Fatalf (w.call (.GetStatistics opts.Domain)) ("Could not get statistics: " ++ err ++ "\n")
    | .ok subdomains =>
      .ok (Silentf (w.call (.GetStatistics opts.Domain)) (Nat.repr subdomains ++ "\n"))
  else
    match openOutput env opts w with
    | .error s => .error s
    | .ok (opts1, w1) => enumerate env opts1 w1

/-! ## Definitions used in the statements -/

/-- The client call one round of enumeration makes. -/
def enumCall (opts : Options) : Call :=
  if opts.BBQ then .GetBBQSubdomains (request opts) else .GetSubdomains (request opts)

/-- The world w followed by what the world d records. -/
def World.append (w d : World) : World :=
  { stdout := w.stdout ++ d.stdout, outFile := w.outFile ++ d.outFile, log := w.log ++ d.log,
    calls := w.calls ++ d.calls, scanned := w.scanned ++ d.scanned }

/-- The run r, started after the world w. -/
def Run.shift (w : World) : Run → Run
  | .ok d => .ok (w.append d)
  | .error s => .error { world := w.append s.world, halt := s.halt }

/-- The bytes a world holds for a sink. -/
def World.sink (w : World) : Sink → String
  | .stdout => w.stdout
  | .outputFile => w.outFile

/-- The concatenation p1 ++ p2 ++ ... ++ pn. -/
def concat : List String → String
  | [] => ""
  | p :: ps => p ++ concat ps

/-- Runs one after the other, each given as what it adds to the world: the
first one that stops ends the sequence. -/
def seqRuns : List Run → Run
  | [] => .ok World.init
  | .ok d :: rs => Run.shift d (seqRuns rs)
  | .error s :: _ => .error s

/-- The line the plain processor prints for a label. -/
def plainLine (opts : Options) (label : String) : String := label ++ "." ++ opts.Domain ++ "\n"

/-- The text processBBQDomain writes for a decoded record when JSONOutput is
off: the rendered line, passed through fmt.Sprintf as a format, and a newline
when the record passes the filter and that text is non-empty; nothing
otherwise. -/
def bbqLine (env : Env) (opts : Options) (r : BBQData) : String :=
  if env.applyFilter r opts.filter = true ∧ Sprintf (env.extractOutput r opts.filter) ≠ "" then
    Sprintf (env.extractOutput r opts.filter) ++ "\n"
  else ""

/-! ## Sample environments and options -/

/-- Options with every field empty or off and Update set to "-". -/
def sampleOpts : Options :=
  { APIKey := "key", Domain := "", DomainsFile := "", Update := "-", Output := "",
    JSONOutput := false, BBQ := false, Count := false, filter := { predicates := [], output := "" },
    outputFile := none, outputWriter := none }

/-- An environment without standard input, in which no file can be opened, the
upload succeeds, the statistics report 42 subdomains and the streams are
empty. -/
def sampleEnv : Env :=
  { stdin := none,
    openFile := fun path => .error ("open " ++ path ++ ": no such file or directory"),
    createFile := fun _ => none,
    fileWriteErr := none,
    putSubdomains := fun _ => none,
    getStatistics := fun _ => .ok 42,
    getSubdomains := fun _ => [],
    getBBQSubdomains := fun _ => [],
    unmarshal := fun data => .ok [("name", data)],
    applyFilter := fun _ _ => true,
    extractOutput := fun r _ => (r.lookup "name").getD "" }

/-- The sample environment with the file subs.txt present. -/
def fileEnv : Env :=
  { sampleEnv with
    openFile := fun path =>
      if path = "subs.txt" then .ok "b.example.com\n"
      else .error ("open " ++ path ++ ": no such file or directory") }

/-- The sample environment with one domain piped into standard input and the
file subs.txt present. -/
def pipeEnv : Env := { fileEnv with stdin := some "a.example.com\n" }

/-- An environment whose streams carry two raw JSON payloads each and whose
decoder rejects everything. -/
def jsonEnv : Env :=
  { sampleEnv with
    getSubdomains := fun _ =>
      [{ Subdomain := "", Reader := some "[\"www\",", Error := none },
       { Subdomain := "", Reader := some "\"api\"]", Error := none }],
    getBBQSubdomains := fun _ =>
      [{ Data := "", Reader := some "[1,", Error := none },
       { Data := "", Reader := some "2]", Error := none }],
    unmarshal := fun _ => .error "unexpected end of JSON input",
    applyFilter := fun _ _ => false }

/-- The environment jsonEnv with an output file that rejects every write. -/
def fullDiskEnv : Env := { jsonEnv with fileWriteErr := some "no space left on device" }

/-- Options for JSON output to standard output and to the file out.json, as
RunEnumeration prepares them. -/
def jsonOpts : Options :=
  { sampleOpts with
    Domain := "example.com"
    JSONOutput := true
    Output := "out.json"
    outputFile := some "out.json"
    outputWriter := some [Sink.stdout, Sink.outputFile] }

/-- An environment without standard input in which list.txt holds three lines,
the middle one empty, and every domain has the subdomains www and api. -/
def listEnv : Env :=
  { sampleEnv with
    openFile := fun path =>
      if path = "list.txt" then .ok "a.com\n\nb.com\n"
      else .error ("open " ++ path ++ ": no such file or directory"),
    getSubdomains := fun _ =>
      [{ Subdomain := "www", Reader := none, Error := none },
       { Subdomain := "api", Reader := none, Error := none }] }

/-- Options for the plain listing of list.txt, as RunEnumeration prepares them
when no output file is configured. -/
def listOpts : Options :=
  { sampleOpts with DomainsFile := "list.txt", outputWriter := some [Sink.stdout] }

/-- The sample environment with the single subdomain www for every domain. -/
def plainEnv : Env :=
  { sampleEnv with
    getSubdomains := fun _ => [{ Subdomain := "www", Reader := none, Error := none }] }

/-- The sample environment with the subdomain www followed by an item whose
label is empty. -/
def emptyLabelEnv : Env :=
  { sampleEnv with
    getSubdomains := fun _ =>
      [{ Subdomain := "www", Reader := none, Error := none },
       { Subdomain := "", Reader := none, Error := none }] }

/-- Options for the plain enumeration of example.com with the output file
out.txt. -/
def fileOpts : Options := { sampleOpts with Domain := "example.com", Output := "out.txt" }

/-- The sample environment with one structured record whose program name
holds a percent sign; the filter matches field by field and the projector
substitutes the value of the selected field. -/
def bbqEnv : Env :=
  { sampleEnv with
    getBBQSubdomains := fun _ =>
      [{ Data := "\x7b\"program_name\":\"100% Bounty\"\x7d", Reader := none, Error := none }],
    unmarshal := fun data =>
      if data = "\x7b\"program_name\":\"100% Bounty\"\x7d"
      then .ok [("program_name", "100% Bounty")]
      else .error "invalid character",
    applyFilter := fun r f => f.predicates.all (fun kv => r.lookup kv.1 == some kv.2),
    extractOutput := fun r f => (r.lookup f.output).getD "" }

/-- Options for the structured enumeration of example.com, projecting the
program name, without predicates. -/
def bbqOpts : Options :=
  { sampleOpts with
    Domain := "example.com"
    BBQ := true
    filter := { predicates := [], output := "program_name" } }

/-! ## What the loops leave unchanged -/

theorem multiWrite_calls (env : Env) (ws : List Sink) (p : String) (w : World) :
    (multiWrite env ws p w).1.calls = w.calls := by
  induction ws generalizing w with
  | nil => rfl
  | cons k ks ih =>
    cases k with
    | stdout => simp only [multiWrite]; rw [ih]
    | outputFile =>
      simp only [multiWrite]
      cases env.fileWriteErr with
      | none => simp only []; rw [ih]
      | some e => rfl

theorem multiWrite_scanned (env : Env) (ws : List Sink) (p : String) (w : World) :
    (multiWrite env ws p w).1.scanned = w.scanned := by
  induction ws generalizing w with
  | nil => rfl
  | cons k ks ih =>
    cases k with
    | stdout => simp only [multiWrite]; rw [ih]
    | outputFile =>
      simp only [multiWrite]
      cases env.fileWriteErr with
      | none => simp only []; rw [ih]
      | some e => rfl

theorem copyChunks_calls (env : Env) (ws : List Sink) (fuel : Nat) (data : List Char)
    (w : World) :
    (copyChunks env ws fuel data w).calls = w.calls ∧
      (copyChunks env ws fuel data w).scanned = w.scanned := by
  induction fuel generalizing data w with
  | zero => exact ⟨rfl, rfl⟩
  | succ n ih =>
    cases data with
    | nil => exact ⟨rfl, rfl⟩
    | cons c cs =>
      simp only [copyChunks]
      have hc := multiWrite_calls env ws (String.mk ((c :: cs).take copyBufferSize)) w
      have hs := multiWrite_scanned env ws (String.mk ((c :: cs).take copyBufferSize)) w
      rcases hm : multiWrite env ws (String.mk ((c :: cs).take copyBufferSize)) w with ⟨w1, e⟩
      rw [hm] at hc hs
      cases e with
      | some err => exact ⟨hc, hs⟩
      | none =>
        simp only []
        exact ⟨(ih _ w1).1.trans hc, (ih _ w1).2.trans hs⟩

theorem ioCopy_calls (env : Env) (dst : Option (List Sink)) (src : Option String) (w : World) :
    (ioCopy env dst src w).world.calls = w.calls ∧
      (ioCopy env dst src w).world.scanned = w.scanned := by
  unfold ioCopy
  cases src with
  | none => exact ⟨rfl, rfl⟩
  | some p =>
    cases dst with
    | none => by_cases hp : p = "" <;> simp [hp, Run.world]
    | some ws => exact copyChunks_calls env ws _ _ w

theorem processDomainItem_calls (env : Env) (opts : Options) (w : World) (item : Result) :
    (processDomainItem env opts w item).world.calls = w.calls ∧
      (processDomainItem env opts w item).world.scanned = w.scanned := by
  unfold processDomainItem
  cases item.Error with
  | some e => exact ⟨rfl, rfl⟩
  | none =>
    simp only []
    by_cases hj : opts.JSONOutput = true
    · simp only [hj, if_true]; exact ioCopy_calls env _ _ w
    · simp only [hj, if_false]
      by_cases ho : opts.Output = ""
      · simp only [ho, ne_eq, not_true_eq_false, if_false]
        by_cases hs : item.Subdomain = "" <;> simp [hs, Run.world, Silentf]
      · simp only [ne_eq, ho, not_false_eq_true, if_true]
        cases hw : opts.outputWriter with
        | none =>
          by_cases hs : item.Subdomain = "" <;> simp [hs, Run.world, Silentf, Fprintf]
        | some ws =>
          simp only [Fprintf]
          generalize hw1 : (if item.Subdomain ≠ "" then
            Silentf w (item.Subdomain ++ "." ++ opts.Domain ++ "\n") else w) = w1
          have h1 : w1.calls = w.calls ∧ w1.scanned = w.scanned := by
            subst hw1; by_cases hs : item.Subdomain = "" <;> simp [hs, Silentf]
          have hc := multiWrite_calls env ws (item.Subdomain ++ "." ++ opts.Domain ++ "\n") w1
          have hsc := multiWrite_scanned env ws (item.Subdomain ++ "." ++ opts.Domain ++ "\n") w1
          rcases hm : multiWrite env ws (item.Subdomain ++ "." ++ opts.Domain ++ "\n") w1 with ⟨w2, e⟩
          rw [hm] at hc hsc
          cases e with
          | none => exact ⟨hc.trans h1.1, hsc.trans h1.2⟩
          | some err => exact ⟨hc.trans h1.1, hsc.trans h1.2⟩

theorem processBBQDomainItem_calls (env : Env) (opts : Options) (w : World) (item : BBQResult) :
    (processBBQDomainItem env opts w item).world.calls = w.calls ∧
      (processBBQDomainItem env opts w item).world.scanned = w.scanned := by
  unfold processBBQDomainItem
  cases item.Error with
  | some e => exact ⟨rfl, rfl⟩
  | none =>
    simp only []
    by_cases hj : opts.JSONOutput = true
    · simp only [hj, if_true]; exact ioCopy_calls env _ _ w
    · simp only [hj, if_false]
      cases env.unmarshal item.Data with
      | error e => exact ⟨rfl, rfl⟩
      | ok bbqdata =>
        simp only []
        by_cases hf : env.applyFilter bbqdata opts.filter = true
        · simp only [hf, Bool.not_true, if_false]
          by_cases hl : Sprintf (env.extractOutput bbqdata opts.filter) = ""
          · simp [hl, Run.world]
          · simp only [ne_eq, hl, not_false_eq_true, if_true]
            cases hw : opts.outputWriter with
            | none => exact ⟨rfl, rfl⟩
            | some ws =>
              simp only [Fprintf]
              have hc := multiWrite_calls env ws
                (Sprintf (env.extractOutput bbqdata opts.filter) ++ "\n") w
              have hsc := multiWrite_scanned env ws
                (Sprintf (env.extractOutput bbqdata opts.filter) ++ "\n") w
              rcases hm : multiWrite env ws
                (Sprintf (env.extractOutput bbqdata opts.filter) ++ "\n") w with ⟨w2, e⟩
              rw [hm] at hc hsc
              cases e with
              | none => exact ⟨hc, hsc⟩
              | some err => exact ⟨hc, hsc⟩
        · simp [hf, Run.world]

theorem forEach_preserve {α β : Type} (f : World → β) (body : World → α → Run)
    (h : ∀ w x, f (body w x).world = f w) (xs : List α) (w : World) :
    f (forEach body xs w).world = f w := by
  induction xs generalizing w with
  | nil => rfl
  | cons x xs ih =>
    have hx := h w x
    unfold forEach
    cases hb : body w x with
    | ok w1 => rw [hb] at hx; simp only []; rw [ih w1]; exact hx
    | error s => rw [hb] at hx; exact hx

theorem processDomain_calls (env : Env) (opts : Options) (w : World) :
    (processDomain env opts w).world.calls = w.calls ++ [.GetSubdomains (request opts)] ∧
      (processDomain env opts w).world.scanned = w.scanned := by
  unfold processDomain
  exact ⟨forEach_preserve (fun v => v.calls) _ (fun v x => (processDomainItem_calls env opts v x).1) _ _,
    forEach_preserve (fun v => v.scanned) _ (fun v x => (processDomainItem_calls env opts v x).2) _ _⟩

theorem processBBQDomain_calls (env : Env) (opts : Options) (w : World) :
    (processBBQDomain env opts w).world.calls = w.calls ++ [.GetBBQSubdomains (request opts)] ∧
      (processBBQDomain env opts w).world.scanned = w.scanned := by
  unfold processBBQDomain
  exact ⟨forEach_preserve (fun v => v.calls) _ (fun v x => (processBBQDomainItem_calls env opts v x).1) _ _,
    forEach_preserve (fun v => v.scanned) _ (fun v x => (processBBQDomainItem_calls env opts v x).2) _ _⟩

theorem enumCall_family (opts : Options) : (enumCall opts).family = .enumerate := by
  unfold enumCall; cases opts.BBQ <;> rfl

theorem perDomain_calls (env : Env) (opts : Options) (w : World) :
    (perDomain env opts w).world.calls = w.calls ++ [enumCall opts] ∧
      (perDomain env opts w).world.scanned = w.scanned := by
  unfold perDomain enumCall
  cases opts.BBQ with
  | true => exact processBBQDomain_calls env opts w
  | false => exact processDomain_calls env opts w

theorem forEach_family {α : Type} (body : World → α → Run)
    (h : ∀ w x, ∀ c ∈ (body w x).world.calls, c ∈ w.calls ∨ c.family = .enumerate)
    (xs : List α) (w : World) :
    ∀ c ∈ (forEach body xs w).world.calls, c ∈ w.calls ∨ c.family = .enumerate := by
  induction xs generalizing w with
  | nil => intro c hc; exact Or.inl hc
  | cons x xs ih =>
    have hx := h w x
    unfold forEach
    cases hb : body w x with
    | ok w1 =>
      rw [hb] at hx
      intro c hc
      rcases ih w1 c hc with h1 | h1
      · exact hx c h1
      · exact Or.inr h1
    | error s => rw [hb] at hx; exact hx

theorem perDomain_family (env : Env) (opts : Options) (w : World) :
    ∀ c ∈ (perDomain env opts w).world.calls, c ∈ w.calls ∨ c.family = .enumerate := by
  intro c hc
  rw [(perDomain_calls env opts w).1, List.mem_append, List.mem_singleton] at hc
  rcases hc with h1 | h1
  · exact Or.inl h1
  · exact Or.inr (h1 ▸ enumCall_family opts)

theorem processList_family (env : Env) (opts : Options) (w : World) :
    ∀ c ∈ (processList env opts w).world.calls, c ∈ w.calls ∨ c.family = .enumerate := by
  unfold processList
  cases listSource env opts with
  | error err => intro c hc; exact Or.inl hc
  | ok r =>
    rcases r with ⟨h, lines⟩
    exact forEach_family _ (fun v l => perDomain_family env _ v) lines _

theorem processList_scanned (env : Env) (opts : Options) (w : World) :
    ∀ h ∈ (processList env opts w).world.scanned,
      h ∈ w.scanned ∨ ∃ lines, listSource env opts = .ok (h, lines) := by
  unfold processList
  cases hl : listSource env opts with
  | error err => intro h hh; exact Or.inl hh
  | ok r =>
    rcases r with ⟨h0, lines⟩
    intro h hh
    simp only [] at hh
    rw [forEach_preserve (fun v => v.scanned) _ (fun v l => (perDomain_calls env _ v).2)] at hh
    rw [List.mem_append, List.mem_singleton] at hh
    rcases hh with h1 | h1
    · exact Or.inl h1
    · exact Or.inr ⟨lines, by rw [h1]⟩

theorem enumerate_family (env : Env) (opts : Options) (w : World) :
    ∀ c ∈ (enumerate env opts w).world.calls, c ∈ w.calls ∨ c.family = .enumerate := by
  unfold enumerate
  have hr : ∀ c ∈ (Run.world (if opts.Domain ≠ "" then perDomain env opts w else .ok w)).calls,
      c ∈ w.calls ∨ c.family = .enumerate := by
    split
    · exact perDomain_family env opts w
    · intro c hc; exact Or.inl hc
  generalize (if opts.Domain ≠ "" then perDomain env opts w else (Except.ok w : Run)) = r at hr ⊢
  cases r with
  | error s => exact hr
  | ok w1 =>
    simp only []
    split
    · intro c hc
      rcases processList_family env opts w1 c hc with h1 | h1
      · exact hr c h1
      · exact Or.inr h1
    · exact hr

theorem enumerate_scanned (env : Env) (opts : Options) (w : World) :
    ∀ h ∈ (enumerate env opts w).world.scanned,
      h ∈ w.scanned ∨ ∃ lines, listSource env opts = .ok (h, lines) := by
  unfold enumerate
  have hr : (Run.world (if opts.Domain ≠ "" then perDomain env opts w else .ok w)).scanned
      = w.scanned := by
    split
    · exact (perDomain_calls env opts w).2
    · rfl
  generalize (if opts.Domain ≠ "" then perDomain env opts w else (Except.ok w : Run)) = r at hr ⊢
  cases r with
  | error s => intro h hh; exact Or.inl (hr ▸ hh)
  | ok w1 =>
    simp only []
    split
    · intro h hh
      rcases processList_scanned env opts w1 h hh with h1 | h1
      · exact Or.inl (hr ▸ h1)
      · exact Or.inr h1
    · intro h hh; exact Or.inl (hr ▸ hh)

theorem upload_calls (env : Env) (src : UploadSource) (contents done : String) (w : World) :
    (upload env src contents done w).world.calls = w.calls ++ [.PutSubdomains src contents] ∧
      (upload env src contents done w).world.scanned = w.scanned := by
  unfold upload
  cases env.putSubdomains contents <;> exact ⟨rfl, rfl⟩

theorem openOutput_fields (env : Env) (opts opts1 : Options) (w w1 : World)
    (h : openOutput env opts w = .ok (opts1, w1)) :
    opts1.Update = opts.Update ∧ opts1.DomainsFile = opts.DomainsFile ∧
      w1.calls = w.calls ∧ w1.scanned = w.scanned := by
  unfold openOutput at h
  split at h
  · split at h
    · cases h
    · cases h; exact ⟨rfl, rfl, rfl, rfl⟩
  · cases h; exact ⟨rfl, rfl, rfl, rfl⟩

theorem openOutput_stopped (env : Env) (opts : Options) (w : World) (s : Stopped)
    (h : openOutput env opts w = .error s) : s.world = w := by
  unfold openOutput at h
  split at h
  · split at h
    · cases h; rfl
    · cases h
  · cases h

theorem listSource_handle (env : Env) (opts : Options) (h : Handle) (lines : List String)
    (hu : opts.Update ≠ "") (hl : listSource env opts = .ok (h, lines)) :
    (env.hasStdin = true ∧ h = .stdin) ∨
      (env.hasStdin = false ∧ h = .file opts.DomainsFile) := by
  unfold listSource at hl
  by_cases hs : env.hasStdin = true
  · simp only [hs, if_true] at hl
    cases hl; exact Or.inl ⟨hs, rfl⟩
  · simp only [hs, if_false, ne_eq, hu, not_false_eq_true, if_true] at hl
    cases ho : env.openFile opts.DomainsFile with
    | error e => rw [ho] at hl; cases hl
    | ok c =>
      rw [ho] at hl
      cases hl
      exact Or.inr ⟨by simpa using hs, rfl⟩

/-- The calls and scanner handles of a run of RunEnumeration, by the branch it
takes. -/
theorem RunEnumeration_branches (env : Env) (opts : Options) :
    (opts.Update ≠ "-" ∧
      ((∃ src contents, (RunEnumeration env opts World.init).world.calls
            = [.PutSubdomains src contents]) ∨
        (∃ err, env.openFile opts.Update = .error err ∧
          RunEnumeration env opts World.init
            = Fatalf World.init ("Could not open input file: " ++ err ++ "\n"))) ∧
      (RunEnumeration env opts World.init).world.scanned = []) ∨
    (opts.Update = "-" ∧
      (RunEnumeration env opts World.init).world.calls = [.GetStatistics opts.Domain] ∧
      (RunEnumeration env opts World.init).world.scanned = []) ∨
    (opts.Update = "-" ∧
      (∀ c ∈ (RunEnumeration env opts World.init).world.calls, c.family = .enumerate) ∧
      ∀ h ∈ (RunEnumeration env opts World.init).world.scanned,
        (env.hasStdin = true ∧ h = .stdin) ∨
          (env.hasStdin = false ∧ h = .file opts.DomainsFile)) := by
  unfold RunEnumeration
  by_cases h1 : opts.Update = "" ∧ env.hasStdin = true
  · rw [if_pos h1]
    refine Or.inl ⟨by rw [h1.1]; decide, Or.inl ⟨_, _, (upload_calls env _ _ _ _).1⟩,
      (upload_calls env _ _ _ _).2⟩
  · rw [if_neg h1]
    by_cases h2 : opts.Update = "-"
    · rw [if_neg (not_not.mpr h2)]
      by_cases h3 : opts.Count = true
      · rw [if_pos h3]
        refine Or.inr (Or.inl ⟨h2, ?_⟩)
        cases env.getStatistics opts.Domain <;> exact ⟨rfl, rfl⟩
      · rw [if_neg h3]
        refine Or.inr (Or.inr ⟨h2, ?_⟩)
        cases ho : openOutput env opts World.init with
        | error s =>
          have hw : Run.world (Except.error s) = World.init :=
            openOutput_stopped env opts World.init s ho
          simp only []
          rw [hw]
          exact ⟨fun c hc => (by cases hc), fun h hh => (by cases hh)⟩
        | ok r =>
          rcases r with ⟨opts1, w1⟩
          obtain ⟨hu, hd, hc, hsc⟩ := openOutput_fields env opts opts1 World.init w1 ho
          simp only []
          constructor
          · intro c hcm
            rcases enumerate_family env opts1 w1 c hcm with h4 | h4
            · rw [hc] at h4; cases h4
            · exact h4
          · intro h hh
            rcases enumerate_scanned env opts1 w1 h hh with h4 | ⟨lines, h4⟩
            · rw [hsc] at h4; cases h4
            · have := listSource_handle env opts1 h lines (by rw [hu, h2]; decide) h4
              rw [hd] at this
              exact this
    · rw [if_pos h2]
      refine Or.inl ⟨h2, ?_⟩
      cases ho : env.openFile opts.Update with
      | error err => exact ⟨Or.inr ⟨err, rfl, rfl⟩, rfl⟩
      | ok contents =>
        exact ⟨Or.inl ⟨_, _, (upload_calls env _ _ _ _).1⟩, (upload_calls env _ _ _ _).2⟩

/-- C9 (workflow exclusivity): whatever the options and whatever the client,
the file system and standard input answer, the client calls of one run of
RunEnumeration belong to at most one family among upload (PutSubdomains), count
(GetStatistics) and enumerate (GetSubdomains, GetBBQSubdomains): the set of the
families of the calls made has at most one element. -/
theorem RunEnumeration_single_workflow (env : Env) (opts : Options) :
    (((RunEnumeration env opts World.init).world.calls.map Call.family).toFinset).card ≤ 1 := by
  have key : ∀ c1 ∈ (RunEnumeration env opts World.init).world.calls,
      ∀ c2 ∈ (RunEnumeration env opts World.init).world.calls, c1.family = c2.family := by
    rcases RunEnumeration_branches env opts with ⟨_, h, _⟩ | ⟨_, h, _⟩ | ⟨_, h, _⟩
    · rcases h with ⟨src, contents, h⟩ | ⟨err, _, h⟩
      · rw [h]; intro c1 h1 c2 h2
        rw [List.mem_singleton] at h1 h2
        rw [h1, h2]
      · rw [h]; intro c1 h1; cases h1
    · rw [h]; intro c1 h1 c2 h2
      rw [List.mem_singleton] at h1 h2
      rw [h1, h2]
    · intro c1 h1 c2 h2
      rw [h c1 h1, h c2 h2]
  rw [Finset.card_le_one]
  intro a ha b hb
  rw [List.mem_toFinset, List.mem_map] at ha hb
  obtain ⟨c1, h1, rfl⟩ := ha
  obtain ⟨c2, h2, rfl⟩ := hb
  exact key c1 h1 c2 h2

/-- C10 (reachability of count and enumeration): a run of RunEnumeration that
makes a GetStatistics, GetSubdomains or GetBBQSubdomains call has Update equal
to "-"; for every other value of Update, the empty one included, the run's
client calls are exactly one PutSubdomains call, or the run is the fatal error
of opening the file at Update; and every handle the line scanner of
processList is created on is standard input when standard input is present and
the opened file at DomainsFile otherwise, never the unassigned handle. -/
theorem RunEnumeration_reachability (env : Env) (opts : Options) :
    ((∃ c ∈ (RunEnumeration env opts World.init).world.calls,
        c.family = .count ∨ c.family = .enumerate) → opts.Update = "-") ∧
    (opts.Update ≠ "-" →
      (∃ src contents, (RunEnumeration env opts World.init).world.calls
          = [.PutSubdomains src contents]) ∨
      (∃ err, env.openFile opts.Update = .error err ∧
        RunEnumeration env opts World.init
          = Fatalf World.init ("Could not open input file: " ++ err ++ "\n"))) ∧
    (∀ h ∈ (RunEnumeration env opts World.init).world.scanned,
      h ≠ .unassigned ∧
      ((env.hasStdin = true ∧ h = .stdin) ∨
        (env.hasStdin = false ∧ h = .file opts.DomainsFile))) := by
  rcases RunEnumeration_branches env opts with ⟨hu, h, hs⟩ | ⟨hu, h, hs⟩ | ⟨hu, h, hs⟩
  · refine ⟨?_, fun _ => h, ?_⟩
    · rintro ⟨c, hc, hf⟩
      exfalso
      rcases h with ⟨src, contents, h⟩ | ⟨err, _, h⟩
      · rw [h, List.mem_singleton] at hc
        rw [hc] at hf
        rcases hf with hf | hf <;> cases hf
      · rw [h] at hc; cases hc
    · rw [hs]; intro h hh; cases hh
  · refine ⟨fun _ => hu, fun hne => absurd hu hne, ?_⟩
    rw [hs]; intro h hh; cases hh
  · refine ⟨fun _ => hu, fun hne => absurd hu hne, ?_⟩
    intro h hh
    have := hs h hh
    refine ⟨?_, this⟩
    rcases this with ⟨_, h1⟩ | ⟨_, h1⟩ <;> rw [h1] <;> intro h2 <;> cases h2

/-! ## The dispatcher -/

theorem gologgerText_fileProcessed : gologgerText fileProcessed = fileProcessed := rfl

theorem gologgerText_inputProcessed : gologgerText inputProcessed = inputProcessed := rfl

/-- C8 (file upload and missing file): when Update is neither empty nor "-"
(in particular when, in addition, standard input has no data), a file at Update
that can be opened leads to exactly one client call, PutSubdomains with the
contents of that file; the run then returns with the single success message
when the call succeeds, and when the call fails it is stopped by the fatal
diagnostic of the upload; a file that cannot be opened stops the run with the
fatal diagnostic of the open error, before any client call. -/
theorem RunEnumeration_file_upload (env : Env) (opts : Options)
    (h1 : opts.Update ≠ "") (h2 : opts.Update ≠ "-") :
    (∀ contents, env.openFile opts.Update = .ok contents →
      (RunEnumeration env opts World.init).world.calls
          = [.PutSubdomains (.file opts.Update) contents] ∧
      (env.putSubdomains contents = none →
        RunEnumeration env opts World.init
          = .ok { World.init with
              calls := [.PutSubdomains (.file opts.Update) contents],
              log := [fileProcessed] }) ∧
      (∀ err, env.putSubdomains contents = some err →
        RunEnumeration env opts World.init
          = .error
              { world := { World.init with
                  calls := [.PutSubdomains (.file opts.Update) contents] },
                halt := .fatal (gologgerText ("Could not upload subdomains: " ++ err ++ "\n")) })) ∧
    (∀ err, env.openFile opts.Update = .error err →
      RunEnumeration env opts World.init
          = .error
              { world := World.init,
                halt := .fatal (gologgerText ("Could not open input file: " ++ err ++ "\n")) }) := by
  have hns : ¬ (opts.Update = "" ∧ env.hasStdin = true) := fun h => h1 h.1
  unfold RunEnumeration
  rw [if_neg hns, if_pos h2]
  constructor
  · intro contents ho
    rw [ho]
    simp only [upload]
    refine ⟨?_, ?_, ?_⟩
    · cases env.putSubdomains contents <;> rfl
    · intro hp; rw [hp]; rfl
    · intro err hp; rw [hp]; rfl
  · intro err ho
    rw [ho]
    rfl

/-- The file upload at the file subs.txt, which holds one line, and the fatal
stop at the missing file nope.txt. -/
theorem RunEnumeration_file_upload_witness :
    RunEnumeration fileEnv { sampleOpts with Update := "subs.txt" } World.init
      = .ok { World.init with
          calls := [.PutSubdomains (.file "subs.txt") "b.example.com\n"],
          log := [fileProcessed] } ∧
    RunEnumeration fileEnv { sampleOpts with Update := "nope.txt" } World.init
      = .error
          { world := World.init,
            halt := .fatal
              "Could not open input file: open nope.txt: no such file or directory\n" } :=
  ⟨((RunEnumeration_file_upload fileEnv { sampleOpts with Update := "subs.txt" }
      (by decide) (by decide)).1 "b.example.com\n" rfl).2.1 rfl,
   (RunEnumeration_file_upload fileEnv { sampleOpts with Update := "nope.txt" }
      (by decide) (by decide)).2 "open nope.txt: no such file or directory" rfl⟩

/-- What the code does with an empty Update and data on standard input: exactly
one client call, PutSubdomains with the contents of standard input; the run
returns with the success message when the call succeeds and is stopped by the
fatal diagnostic when it fails. -/
theorem RunEnumeration_empty_update_upload (env : Env) (opts : Options) (contents : String)
    (hu : opts.Update = "") (hs : env.stdin = some contents) :
    (RunEnumeration env opts World.init).world.calls = [.PutSubdomains .stdin contents] ∧
    (env.putSubdomains contents = none →
      RunEnumeration env opts World.init
        = .ok { World.init with
            calls := [.PutSubdomains .stdin contents], log := [inputProcessed] }) ∧
    (∀ err, env.putSubdomains contents = some err →
      RunEnumeration env opts World.init
        = .error
            { world := { World.init with calls := [.PutSubdomains .stdin contents] },
              halt := .fatal (gologgerText ("Could not upload subdomains: " ++ err ++ "\n")) }) := by
  have hc : env.stdinContents = contents := by simp [Env.stdinContents, hs]
  have hp : opts.Update = "" ∧ env.hasStdin = true := ⟨hu, by simp [Env.hasStdin, hs]⟩
  unfold RunEnumeration
  rw [if_pos hp, hc]
  simp only [upload]
  refine ⟨?_, ?_, ?_⟩
  · cases env.putSubdomains contents <;> rfl
  · intro h; rw [h]; rfl
  · intro err h; rw [h]; rfl

/-- C2 (stdin-upload selection) on the code: with Update set to "-", the value
line 24 exempts from the file upload, and one domain piped into standard input,
the run makes no PutSubdomains call; it returns after enumerating the piped
domain, its only client call being GetSubdomains for a.example.com. -/
theorem RunEnumeration_stdin_not_uploaded :
    sampleOpts.Update = "-" ∧ pipeEnv.stdin = some "a.example.com\n" ∧
    RunEnumeration pipeEnv sampleOpts World.init
      = .ok { World.init with
          calls := [.GetSubdomains { Domain := "a.example.com", OutputFormat := "" }],
          scanned := [.stdin] } :=
  ⟨rfl, rfl, rfl⟩

/-- What the code does in count mode with Update equal to "-": for a client
whose GetStatistics for Domain succeeds with N subdomains, the run returns,
standard output holds the decimal numeral of N and a newline as gologger emits
them, and the only client call is GetStatistics. -/
theorem RunEnumeration_count_dash (env : Env) (opts : Options) (N : Nat)
    (hc : opts.Count = true) (hu : opts.Update = "-")
    (hN : env.getStatistics opts.Domain = .ok N) :
    RunEnumeration env opts World.init
      = .ok { World.init with
          stdout := gologgerText (Nat.repr N ++ "\n"), calls := [.GetStatistics opts.Domain] } := by
  have h1 : ¬ (opts.Update = "" ∧ env.hasStdin = true) := by
    rw [hu]; intro h; exact absurd h.1 (by decide)
  unfold RunEnumeration
  rw [if_neg h1, if_neg (not_not.mpr hu), if_pos hc, hN]
  simp [Silentf, World.call, World.init]

/-- C3 (count mode) on the code: with Count set, Update empty, no data on
standard input and statistics that would report 42 subdomains for example.com,
the run is stopped by the fatal diagnostic of opening the file named by the
empty path; nothing is printed and GetStatistics is not called. -/
theorem RunEnumeration_count_empty_update :
    ({ sampleOpts with Count := true, Update := "", Domain := "example.com" } : Options).Count
      = true ∧
    sampleEnv.stdin = none ∧
    sampleEnv.getStatistics "example.com" = .ok 42 ∧
    RunEnumeration sampleEnv
        { sampleOpts with Count := true, Update := "", Domain := "example.com" } World.init
      = .error
          { world := World.init,
            halt := .fatal "Could not open input file: open : no such file or directory\n" } :=
  ⟨rfl, rfl, rfl, rfl⟩

/-! ## Runs as additions to the world -/

theorem World.append_assoc (a b c : World) : (a.append b).append c = a.append (b.append c) := by
  simp [World.append, String.append_assoc]

theorem World.append_init (w : World) : w.append World.init = w := by
  simp [World.append, World.init]

theorem World.init_append (w : World) : World.init.append w = w := by
  simp [World.append, World.init]

theorem Run.shift_init (r : Run) : Run.shift World.init r = r := by
  cases r <;> simp [Run.shift, World.init_append]

theorem Run.shift_shift (a b : World) (r : Run) :
    Run.shift a (Run.shift b r) = Run.shift (a.append b) r := by
  cases r <;> simp [Run.shift, World.append_assoc]

theorem multiWrite_frame (env : Env) (ws : List Sink) (p : String) (w d : World) :
    multiWrite env ws p (w.append d)
      = (w.append (multiWrite env ws p d).1, (multiWrite env ws p d).2) := by
  induction ws generalizing d with
  | nil => rfl
  | cons k ks ih =>
    cases k with
    | stdout =>
      simp only [multiWrite]
      have h : ({ w.append d with stdout := (w.append d).stdout ++ p } : World)
          = w.append { d with stdout := d.stdout ++ p } := by
        simp [World.append, String.append_assoc]
      rw [h, ih]
    | outputFile =>
      simp only [multiWrite]
      cases env.fileWriteErr with
      | some e => rfl
      | none =>
        simp only []
        have h : ({ w.append d with outFile := (w.append d).outFile ++ p } : World)
            = w.append { d with outFile := d.outFile ++ p } := by
          simp [World.append, String.append_assoc]
        rw [h, ih]

theorem copyChunks_frame (env : Env) (ws : List Sink) (fuel : Nat) (data : List Char)
    (w d : World) :
    copyChunks env ws fuel data (w.append d) = w.append (copyChunks env ws fuel data d) := by
  induction fuel generalizing data d with
  | zero => rfl
  | succ n ih =>
    cases data with
    | nil => rfl
    | cons c cs =>
      simp only [copyChunks]
      rw [multiWrite_frame]
      rcases multiWrite env ws (String.mk ((c :: cs).take copyBufferSize)) d with ⟨d1, e⟩
      cases e with
      | some err => rfl
      | none => exact ih _ d1

theorem ioCopy_frame (env : Env) (dst : Option (List Sink)) (src : Option String) (w d : World) :
    ioCopy env dst src (w.append d) = Run.shift w (ioCopy env dst src d) := by
  unfold ioCopy
  cases src with
  | none => rfl
  | some p =>
    cases dst with
    | none => by_cases hp : p = "" <;> simp [hp, Run.shift]
    | some ws => simp only [Run.shift]; rw [copyChunks_frame]

theorem Silentf_frame (w d : World) (text : String) :
    Silentf (w.append d) text = w.append (Silentf d text) := by
  simp [Silentf, World.append, String.append_assoc]

theorem call_frame (w d : World) (c : Call) : (w.append d).call c = w.append (d.call c) := by
  simp [World.call, World.append]

theorem processDomainItem_frame (env : Env) (opts : Options) (w d : World) (item : Result) :
    processDomainItem env opts (w.append d) item
      = Run.shift w (processDomainItem env opts d item) := by
  unfold processDomainItem
  cases item.Error with
  | some e => rfl
  | none =>
    simp only []
    by_cases hj : opts.JSONOutput = true
    · simp only [hj, if_true]; exact ioCopy_frame env _ _ w d
    · simp only [hj, if_false]
      have h1 : (if item.Subdomain ≠ "" then
            Silentf (w.append d) (item.Subdomain ++ "." ++ opts.Domain ++ "\n") else w.append d)
          = w.append (if item.Subdomain ≠ "" then
            Silentf d (item.Subdomain ++ "." ++ opts.Domain ++ "\n") else d) := by
        by_cases hs : item.Subdomain = "" <;> simp [hs, Silentf_frame]
      rw [h1]
      generalize (if item.Subdomain ≠ "" then
            Silentf d (item.Subdomain ++ "." ++ opts.Domain ++ "\n") else d) = d1
      by_cases ho : opts.Output = ""
      · simp [ho, Run.shift]
      · simp only [ne_eq, ho, not_false_eq_true, if_true]
        cases opts.outputWriter with
        | none => rfl
        | some ws =>
          simp only [Fprintf]
          rw [multiWrite_frame]
          rcases multiWrite env ws (item.Subdomain ++ "." ++ opts.Domain ++ "\n") d1 with ⟨w2, e⟩
          cases e <;> rfl

theorem processBBQDomainItem_frame (env : Env) (opts : Options) (w d : World) (item : BBQResult) :
    processBBQDomainItem env opts (w.append d) item
      = Run.shift w (processBBQDomainItem env opts d item) := by
  unfold processBBQDomainItem
  cases item.Error with
  | some e => rfl
  | none =>
    simp only []
    by_cases hj : opts.JSONOutput = true
    · simp only [hj, if_true]; exact ioCopy_frame env _ _ w d
    · simp only [hj, if_false]
      cases env.unmarshal item.Data with
      | error e => rfl
      | ok bbqdata =>
        simp only []
        by_cases hf : env.applyFilter bbqdata opts.filter = true
        · simp only [hf, Bool.not_true, if_false]
          by_cases hl : Sprintf (env.extractOutput bbqdata opts.filter) = ""
          · simp [hl, Run.shift]
          · simp only [ne_eq, hl, not_false_eq_true, if_true]
            cases opts.outputWriter with
            | none => rfl
            | some ws =>
              simp only [Fprintf]
              rw [multiWrite_frame]
              rcases multiWrite env ws
                (Sprintf (env.extractOutput bbqdata opts.filter) ++ "\n") d with ⟨w2, e⟩
              cases e <;> rfl
        · simp [hf, Run.shift]

theorem forEach_frame {α : Type} (body : World → α → Run)
    (h : ∀ w d x, body (w.append d) x = Run.shift w (body d x)) (xs : List α) (w d : World) :
    forEach body xs (w.append d) = Run.shift w (forEach body xs d) := by
  induction xs generalizing d with
  | nil => rfl
  | cons x xs ih =>
    unfold forEach
    rw [h w d x]
    cases body d x with
    | ok d1 => simp only [Run.shift]; exact ih d1
    | error s => rfl

theorem perDomain_frame (env : Env) (opts : Options) (w d : World) :
    perDomain env opts (w.append d) = Run.shift w (perDomain env opts d) := by
  unfold perDomain processDomain processBBQDomain
  cases opts.BBQ with
  | true =>
    simp only [if_true]
    rw [call_frame]
    exact forEach_frame _ (processBBQDomainItem_frame env opts) _ _ _
  | false =>
    simp only [Bool.false_eq_true, if_false]
    rw [call_frame]
    exact forEach_frame _ (processDomainItem_frame env opts) _ _ _

/-! ## JSON pass-through -/

theorem multiWrite_sink (env : Env) (hfw : env.fileWriteErr = none) (ws : List Sink)
    (hnd : ws.Nodup) (p : String) (w : World) :
    (multiWrite env ws p w).2 = none ∧
      ∀ k, (multiWrite env ws p w).1.sink k = if k ∈ ws then w.sink k ++ p else w.sink k := by
  induction ws generalizing w with
  | nil => exact ⟨rfl, fun k => by simp [multiWrite]⟩
  | cons s ss ih =>
    rw [List.nodup_cons] at hnd
    cases s with
    | stdout =>
      simp only [multiWrite]
      obtain ⟨h1, h2⟩ := ih hnd.2 { w with stdout := w.stdout ++ p }
      refine ⟨h1, fun k => ?_⟩
      rw [h2 k]
      cases k with
      | stdout => simp [hnd.1, World.sink]
      | outputFile => by_cases hk : Sink.outputFile ∈ ss <;> simp [hk, World.sink]
    | outputFile =>
      simp only [multiWrite, hfw]
      obtain ⟨h1, h2⟩ := ih hnd.2 { w with outFile := w.outFile ++ p }
      refine ⟨h1, fun k => ?_⟩
      rw [h2 k]
      cases k with
      | stdout => by_cases hk : Sink.stdout ∈ ss <;> simp [hk, World.sink]
      | outputFile => simp [hnd.1, World.sink]

theorem copyChunks_sink (env : Env) (hfw : env.fileWriteErr = none) (ws : List Sink)
    (hnd : ws.Nodup) (fuel : Nat) (data : List Char) (w : World) (hlen : data.length ≤ fuel) :
    ∀ k, (copyChunks env ws fuel data w).sink k
      = if k ∈ ws then w.sink k ++ String.mk data else w.sink k := by
  induction fuel generalizing data w with
  | zero =>
    have hd : data = [] := List.length_eq_zero.mp (Nat.le_zero.mp hlen)
    subst hd
    intro k
    have h0 : String.mk [] = "" := rfl
    by_cases hk : k ∈ ws <;> simp [copyChunks, hk, h0]
  | succ n ih =>
    cases data with
    | nil =>
      intro k
      have h0 : String.mk [] = "" := rfl
      by_cases hk : k ∈ ws <;> simp [copyChunks, hk, h0]
    | cons c cs =>
      intro k
      simp only [copyChunks]
      obtain ⟨he, hsink⟩ := multiWrite_sink env hfw ws hnd
        (String.mk ((c :: cs).take copyBufferSize)) w
      rcases hm : multiWrite env ws (String.mk ((c :: cs).take copyBufferSize)) w with ⟨w1, e⟩
      rw [hm] at he hsink
      simp only [] at he hsink
      subst he
      simp only []
      have hdrop : ((c :: cs).drop copyBufferSize).length ≤ n := by
        rw [List.length_drop]
        simp only [List.length_cons, copyBufferSize] at hlen ⊢
        omega
      rw [ih _ w1 hdrop k, hsink k]
      by_cases hk : k ∈ ws
      · simp only [hk, if_true]
        rw [String.append_assoc]
        have hj : String.mk ((c :: cs).take copyBufferSize)
            ++ String.mk ((c :: cs).drop copyBufferSize) = String.mk (c :: cs) := by
          show String.mk (_ ++ _) = _
          rw [List.take_append_drop]
        rw [hj]
      · simp only [hk, if_false]

theorem forEach_copy {α : Type} (ws : List Sink) (body : World → α → Run)
    (key : α → Option String × Option String)
    (hbody : ∀ w x p, key x = (none, some p) → ∃ v, body w x = .ok v ∧
      ∀ k, v.sink k = if k ∈ ws then w.sink k ++ p else w.sink k)
    (items : List α) (ps : List String)
    (hps : items.map key = ps.map (fun p => (none, some p))) (w : World) :
    ∃ v, forEach body items w = .ok v ∧
      ∀ k, v.sink k = if k ∈ ws then w.sink k ++ concat ps else w.sink k := by
  induction items generalizing ps w with
  | nil =>
    cases ps with
    | nil => exact ⟨w, rfl, fun k => by simp [concat]⟩
    | cons p ps => simp at hps
  | cons x xs ih =>
    cases ps with
    | nil => simp at hps
    | cons p ps =>
      simp only [List.map_cons, List.cons.injEq] at hps
      obtain ⟨w1, hw1, hk1⟩ := hbody w x p hps.1
      obtain ⟨v, hv, hk⟩ := ih ps hps.2 w1
      refine ⟨v, ?_, fun k => ?_⟩
      · unfold forEach; rw [hw1]; exact hv
      · rw [hk k, hk1 k]
        by_cases hm : k ∈ ws <;> simp [hm, concat, String.append_assoc]

theorem ioCopy_sink (env : Env) (hfw : env.fileWriteErr = none) (ws : List Sink)
    (hnd : ws.Nodup) (p : String) (w : World) :
    ∃ v, ioCopy env (some ws) (some p) w = .ok v ∧
      ∀ k, v.sink k = if k ∈ ws then w.sink k ++ p else w.sink k :=
  ⟨_, rfl, copyChunks_sink env hfw ws hnd p.length p.data w (Nat.le_refl _)⟩

/-- C4, as the code has it (JSON pass-through): with JSONOutput set and a
combined writer over distinct sinks whose writes succeed, for every error-free
item sequence of GetSubdomains with raw payloads ps, processDomain returns and
every sink of the writer has received exactly p1 ++ ... ++ pn after what it
held before, a sink outside the writer being unchanged; and separately, for
every error-free item sequence of GetBBQSubdomains with raw payloads qs,
processBBQDomain does the same with q1 ++ ... ++ qn.  Nothing depends on the
decoder or on the filter, which are arbitrary. -/
theorem json_pass_through (env : Env) (opts : Options) (ws : List Sink) (w : World)
    (hj : opts.JSONOutput = true) (hw : opts.outputWriter = some ws)
    (hnd : ws.Nodup) (hfw : env.fileWriteErr = none) :
    (∀ ps : List String,
      (env.getSubdomains (request opts)).map (fun it => (it.Error, it.Reader))
        = ps.map (fun p => (none, some p)) →
      ∃ v, processDomain env opts w = .ok v ∧
        ∀ k, v.sink k = if k ∈ ws then w.sink k ++ concat ps else w.sink k) ∧
    (∀ qs : List String,
      (env.getBBQSubdomains (request opts)).map (fun it => (it.Error, it.Reader))
        = qs.map (fun q => (none, some q)) →
      ∃ v, processBBQDomain env opts w = .ok v ∧
        ∀ k, v.sink k = if k ∈ ws then w.sink k ++ concat qs else w.sink k) := by
  constructor
  · intro ps hps
    exact forEach_copy ws (processDomainItem env opts) (fun it => (it.Error, it.Reader))
      (fun w x p hx => by
        simp only [Prod.mk.injEq] at hx
        simp only [processDomainItem, hx.1, hx.2, hj, hw, if_true]
        exact ioCopy_sink env hfw ws hnd p w)
      _ ps hps (w.call (.GetSubdomains (request opts)))
  · intro qs hqs
    exact forEach_copy ws (processBBQDomainItem env opts) (fun it => (it.Error, it.Reader))
      (fun w x p hx => by
        simp only [Prod.mk.injEq] at hx
        simp only [processBBQDomainItem, hx.1, hx.2, hj, hw, if_true]
        exact ioCopy_sink env hfw ws hnd p w)
      _ qs hqs (w.call (.GetBBQSubdomains (request opts)))

/-- JSON pass-through of two payloads to standard output and to out.json. -/
theorem json_pass_through_witness :
    (∃ v, processDomain jsonEnv jsonOpts World.init = .ok v ∧
      ∀ k, v.sink k = if k ∈ [Sink.stdout, Sink.outputFile]
        then World.init.sink k ++ concat ["[\"www\",", "\"api\"]"] else World.init.sink k) ∧
    (∃ v, processBBQDomain jsonEnv jsonOpts World.init = .ok v ∧
      ∀ k, v.sink k = if k ∈ [Sink.stdout, Sink.outputFile]
        then World.init.sink k ++ concat ["[1,", "2]"] else World.init.sink k) :=
  ⟨(json_pass_through jsonEnv jsonOpts [.stdout, .outputFile] World.init rfl rfl
      (by decide) rfl).1 ["[\"www\",", "\"api\"]"] rfl,
   (json_pass_through jsonEnv jsonOpts [.stdout, .outputFile] World.init rfl rfl
      (by decide) rfl).2 ["[1,", "2]"] rfl⟩

/-- C4 fails as stated when the output file rejects writes: with JSONOutput set,
the output file out.json and two error-free items with the payloads ["www",
and "api"], processDomain and the whole run return normally, standard output
holds both payloads, and the output file, a sink of the writer, holds
nothing. -/
theorem json_pass_through_counterexample :
    jsonOpts.JSONOutput = true ∧
    fullDiskEnv.getSubdomains (request jsonOpts)
      = [{ Subdomain := "", Reader := some "[\"www\",", Error := none },
         { Subdomain := "", Reader := some "\"api\"]", Error := none }] ∧
    processDomain fullDiskEnv jsonOpts World.init
      = .ok { World.init with
          stdout := "[\"www\",\"api\"]", outFile := "",
          calls := [.GetSubdomains { Domain := "example.com", OutputFormat := "json" }] } ∧
    RunEnumeration fullDiskEnv
        { sampleOpts with Domain := "example.com", JSONOutput := true, Output := "out.json" }
        World.init
      = .ok { World.init with
          stdout := "[\"www\",\"api\"]", outFile := "",
          calls := [.GetSubdomains { Domain := "example.com", OutputFormat := "json" }] } :=
  ⟨rfl, rfl, rfl, rfl⟩

/-! ## The list processor -/

theorem forEach_lines_seq (env : Env) (opts : Options) (lines : List String) (w : World) :
    forEach (fun w1 line => perDomain env { opts with Domain := line } w1) lines w
      = Run.shift w (seqRuns (lines.map
          (fun l => perDomain env { opts with Domain := l } World.init))) := by
  induction lines generalizing w with
  | nil => simp [forEach, seqRuns, Run.shift, World.append_init]
  | cons l ls ih =>
    unfold forEach
    simp only [List.map_cons]
    have hf := perDomain_frame env { opts with Domain := l } w World.init
    rw [World.append_init] at hf
    rw [hf]
    cases perDomain env { opts with Domain := l } World.init with
    | ok d =>
      show forEach _ ls (w.append d) = Run.shift w (Run.shift d (seqRuns _))
      rw [Run.shift_shift]
      exact ih _
    | error s => rfl

theorem seqRuns_ok (rs : List Run) (h : ∀ r ∈ rs, ∃ d, r = .ok d) :
    ∃ v, seqRuns rs = .ok v ∧
      v.stdout = concat (rs.map (fun r => r.world.stdout)) ∧
      v.outFile = concat (rs.map (fun r => r.world.outFile)) ∧
      v.calls = (rs.map (fun r => r.world.calls)).flatten ∧
      v.scanned = (rs.map (fun r => r.world.scanned)).flatten := by
  induction rs with
  | nil => exact ⟨World.init, rfl, rfl, rfl, rfl, rfl⟩
  | cons r rs ih =>
    obtain ⟨d, hd⟩ := h r (List.mem_cons_self r rs)
    obtain ⟨v, hv, h1, h2, h3, h4⟩ := ih (fun r1 hr1 => h r1 (List.mem_cons_of_mem r hr1))
    subst hd
    refine ⟨d.append v, by simp [seqRuns, hv, Run.shift], ?_, ?_, ?_, ?_⟩
    · simp [World.append, concat, Run.world, h1]
    · simp [World.append, concat, Run.world, h2]
    · simp [World.append, Run.world, h3]
    · simp [World.append, Run.world, h4]

/-- What processList does when standard input is present or Update is
non-empty: it takes its lines from standard input if it is
present and otherwise from the file at DomainsFile, whose failure to open is
fatal.  For the lines of that source, the run of processList is the sequence,
in line order, of the runs of the per-domain processor (processBBQDomain if BBQ
is set, else processDomain) with Domain set to the line itself, the empty line
included, a stopped run ending the sequence.  When each of these runs returns,
processList returns, it has made exactly one enumeration call per line, in line
order and for that line, and standard output and the output file have received
the concatenation of the per-domain outputs. -/
theorem processList_lines (env : Env) (opts : Options) (w : World)
    (hsrc : env.hasStdin = true ∨ opts.Update ≠ "") :
    (∀ c, env.stdin = some c → listSource env opts = .ok (.stdin, scanLines c)) ∧
    (env.stdin = none → ∀ c, env.openFile opts.DomainsFile = .ok c →
      listSource env opts = .ok (.file opts.DomainsFile, scanLines c)) ∧
    (env.stdin = none → ∀ e, env.openFile opts.DomainsFile = .error e →
      processList env opts w
        = .error { world := w,
                   halt := .fatal (gologgerText ("Could not open input file: " ++ e ++ "\n")) }) ∧
    (∀ h lines, listSource env opts = .ok (h, lines) →
      processList env opts w
        = Run.shift { w with scanned := w.scanned ++ [h] }
            (seqRuns (lines.map (fun l => perDomain env { opts with Domain := l } World.init))) ∧
      ((∀ l ∈ lines, ∃ d, perDomain env { opts with Domain := l } World.init = .ok d) →
        ∃ v, processList env opts w = .ok v ∧
          v.scanned = w.scanned ++ [h] ∧
          v.calls = w.calls ++ lines.map (fun l => enumCall { opts with Domain := l }) ∧
          v.stdout = w.stdout ++ concat (lines.map
            (fun l => (perDomain env { opts with Domain := l } World.init).world.stdout)) ∧
          v.outFile = w.outFile ++ concat (lines.map
            (fun l => (perDomain env { opts with Domain := l } World.init).world.outFile)))) := by
  refine ⟨?_, ?_, ?_, ?_⟩
  · intro c hc
    simp [listSource, Env.hasStdin, Env.stdinContents, hc]
  · intro hn c ho
    have hu : opts.Update ≠ "" := by
      rcases hsrc with h | h
      · simp [Env.hasStdin, hn] at h
      · exact h
    simp [listSource, Env.hasStdin, hn, hu, ho]
  · intro hn e ho
    have hu : opts.Update ≠ "" := by
      rcases hsrc with h | h
      · simp [Env.hasStdin, hn] at h
      · exact h
    simp [processList, listSource, Env.hasStdin, hn, hu, ho, Fatalf]
  · intro h lines hl
    have hrun : processList env opts w
        = Run.shift { w with scanned := w.scanned ++ [h] }
            (seqRuns (lines.map (fun l => perDomain env { opts with Domain := l } World.init))) := by
      unfold processList
      rw [hl]
      exact forEach_lines_seq env opts lines _
    refine ⟨hrun, fun hall => ?_⟩
    obtain ⟨v, hv, h1, h2, h3, h4⟩ := seqRuns_ok
      (lines.map (fun l => perDomain env { opts with Domain := l } World.init))
      (fun r hr => by
        obtain ⟨l, hlm, rfl⟩ := List.mem_map.mp hr
        exact hall l hlm)
    have hcalls : ∀ ls : List String,
        ((ls.map (fun l => perDomain env { opts with Domain := l } World.init)).map
          (fun r => r.world.calls)).flatten = ls.map (fun l => enumCall { opts with Domain := l }) := by
      intro ls
      induction ls with
      | nil => rfl
      | cons l ls ih =>
        simp only [List.map_cons, List.flatten_cons, ih]
        rw [(perDomain_calls env { opts with Domain := l } World.init).1]
        rfl
    have hscan : ∀ ls : List String,
        ((ls.map (fun l => perDomain env { opts with Domain := l } World.init)).map
          (fun r => r.world.scanned)).flatten = [] := by
      intro ls
      induction ls with
      | nil => rfl
      | cons l ls ih =>
        simp only [List.map_cons, List.flatten_cons, ih]
        rw [(perDomain_calls env { opts with Domain := l } World.init).2]
        rfl
    refine ⟨_, by rw [hrun, hv]; rfl, ?_, ?_, ?_, ?_⟩
    · simp only [World.append, h4, hscan, List.append_nil]
    · simp only [World.append, h3, hcalls]
    · simp only [World.append, h1, List.map_map]; rfl
    · simp only [World.append, h2, List.map_map]; rfl

/-- The list list.txt, with an empty middle line, processed in plain mode. -/
theorem processList_lines_witness :
    listEnv.hasStdin = false ∧ listOpts.Update ≠ "" ∧
    ∃ v, processList listEnv listOpts World.init = .ok v ∧
      v.scanned = [Handle.file "list.txt"] ∧
      v.calls = [Call.GetSubdomains { Domain := "a.com", OutputFormat := "" },
        Call.GetSubdomains { Domain := "", OutputFormat := "" },
        Call.GetSubdomains { Domain := "b.com", OutputFormat := "" }] ∧
      v.stdout = "www.a.com\napi.a.com\nwww.\napi.\nwww.b.com\napi.b.com\n" :=
  ⟨rfl, by decide, by
    obtain ⟨v, hv, h1, h2, h3, _⟩ :=
      ((processList_lines listEnv listOpts World.init (Or.inr (by decide))).2.2.2
        (Handle.file "list.txt") ["a.com", "", "b.com"] rfl).2
        (fun l _ => ⟨(perDomain listEnv { listOpts with Domain := l } World.init).world, rfl⟩)
    exact ⟨v, hv, h1, h2, h3⟩⟩

/-- C6 (list processing) on the code: without standard input, with Update empty
and DomainsFile naming the file list.txt, which holds three lines, processList
returns without opening the file: the scanner is created on the unassigned
handle, no line is delivered, no per-domain run takes place and nothing is
printed.  Lines 61-71 of RunEnumeration, whose test at line 69 sends a
non-empty DomainsFile to processList, return the same way. -/
theorem processList_empty_update :
    listEnv.stdin = none ∧
    ({ listOpts with Update := "" } : Options).DomainsFile = "list.txt" ∧
    listEnv.openFile "list.txt" = .ok "a.com\n\nb.com\n" ∧
    scanLines "a.com\n\nb.com\n" = ["a.com", "", "b.com"] ∧
    processList listEnv { listOpts with Update := "" } World.init
      = .ok { World.init with scanned := [Handle.unassigned] } ∧
    enumerate listEnv { listOpts with Update := "" } World.init
      = .ok { World.init with scanned := [Handle.unassigned] } :=
  ⟨rfl, rfl, rfl, rfl, rfl, rfl⟩

/-! ## The plain and the structured processor, item by item -/

theorem forEach_deltas {α : Type} (body : World → α → Run) (delta : α → World) (xs : List α)
    (h : ∀ w, ∀ x ∈ xs, body w x = .ok (w.append (delta x))) (w : World) :
    ∃ v, forEach body xs w = .ok v ∧
      v.stdout = w.stdout ++ concat (xs.map (fun x => (delta x).stdout)) ∧
      v.outFile = w.outFile ++ concat (xs.map (fun x => (delta x).outFile)) ∧
      v.calls = w.calls ++ (xs.map (fun x => (delta x).calls)).flatten := by
  induction xs generalizing w with
  | nil => exact ⟨w, rfl, by simp [concat], by simp [concat], by simp⟩
  | cons x xs ih =>
    obtain ⟨v, hv, h1, h2, h3⟩ :=
      ih (fun w1 y hy => h w1 y (List.mem_cons_of_mem x hy)) (w.append (delta x))
    refine ⟨v, ?_, ?_, ?_, ?_⟩
    · unfold forEach; rw [h w x (List.mem_cons_self x xs)]; exact hv
    · rw [h1]; simp [World.append, concat, String.append_assoc]
    · rw [h2]; simp [World.append, concat, String.append_assoc]
    · rw [h3]; simp [World.append]

theorem concat_map_empty {α : Type} (xs : List α) : concat (xs.map (fun _ => "")) = "" := by
  induction xs with
  | nil => rfl
  | cons x xs ih =>
    show "" ++ concat (xs.map (fun _ => "")) = ""
    rw [ih]
    rfl

/-- Plain mode without an output file: for an error-free item sequence,
processDomain returns and standard output has received, in arrival order, the
line of every item whose label is non-empty, once and as gologger emits it, and
nothing for an item whose label is empty; the output file is untouched. -/
theorem processDomain_plain_stdout (env : Env) (opts : Options) (w : World)
    (hj : opts.JSONOutput = false) (ho : opts.Output = "")
    (herr : ∀ it ∈ env.getSubdomains (request opts), it.Error = none) :
    ∃ v, processDomain env opts w = .ok v ∧
      v.stdout = w.stdout ++ concat ((env.getSubdomains (request opts)).map
        (fun it => if it.Subdomain ≠ "" then gologgerText (plainLine opts it.Subdomain)
          else "")) ∧
      v.outFile = w.outFile := by
  obtain ⟨v, hv, h1, h2, _⟩ := forEach_deltas (processDomainItem env opts)
    (fun it => { World.init with
      stdout := if it.Subdomain ≠ "" then gologgerText (plainLine opts it.Subdomain) else "" })
    (env.getSubdomains (request opts))
    (fun w1 it hit => by
      simp only [processDomainItem, herr it hit, hj, ho]
      by_cases hs : it.Subdomain = "" <;>
        simp [hs, Silentf, World.append, World.init, plainLine])
    (w.call (.GetSubdomains (request opts)))
  refine ⟨v, hv, by rw [h1]; rfl, ?_⟩
  rw [h2]
  show w.outFile ++ concat ((env.getSubdomains (request opts)).map (fun _ => "")) = w.outFile
  rw [concat_map_empty]
  simp

/-- Plain mode with an output file, for the writer RunEnumeration assigns and
file writes that succeed: for an error-free item sequence, processDomain
returns; the output file has received the line of every item, the items with
an empty label included; standard output has received, per item, that same
line, preceded by a first copy of it, as gologger emits it, when the label is
non-empty. -/
theorem processDomain_plain_file (env : Env) (opts : Options) (w : World)
    (hj : opts.JSONOutput = false) (ho : opts.Output ≠ "")
    (hw : opts.outputWriter = some [.stdout, .outputFile]) (hfw : env.fileWriteErr = none)
    (herr : ∀ it ∈ env.getSubdomains (request opts), it.Error = none) :
    ∃ v, processDomain env opts w = .ok v ∧
      v.stdout = w.stdout ++ concat ((env.getSubdomains (request opts)).map
        (fun it => (if it.Subdomain ≠ "" then gologgerText (plainLine opts it.Subdomain)
          else "") ++ plainLine opts it.Subdomain)) ∧
      v.outFile = w.outFile ++ concat ((env.getSubdomains (request opts)).map
        (fun it => plainLine opts it.Subdomain)) := by
  obtain ⟨v, hv, h1, h2, _⟩ := forEach_deltas (processDomainItem env opts)
    (fun it => { World.init with
      stdout := (if it.Subdomain ≠ "" then gologgerText (plainLine opts it.Subdomain) else "")
        ++ plainLine opts it.Subdomain,
      outFile := plainLine opts it.Subdomain })
    (env.getSubdomains (request opts))
    (fun w1 it hit => by
      simp only [processDomainItem, herr it hit, hj, hw, Fprintf, multiWrite, hfw]
      by_cases hs : it.Subdomain = "" <;>
        simp [hs, ho, Silentf, World.append, World.init, plainLine, String.append_assoc])
    (w.call (.GetSubdomains (request opts)))
  exact ⟨v, hv, by rw [h1]; rfl, by rw [h2]; rfl⟩

theorem multiWrite_empty (env : Env) (hfw : env.fileWriteErr = none) (ws : List Sink) (w : World) :
    (multiWrite env ws "" w).1 = w := by
  induction ws generalizing w with
  | nil => rfl
  | cons k ks ih =>
    cases k with
    | stdout =>
      simp only [multiWrite]
      rw [ih]
      simp
    | outputFile =>
      simp only [multiWrite, hfw]
      rw [ih]
      simp

theorem forEach_write {α : Type} (env : Env) (hfw : env.fileWriteErr = none) (ws : List Sink)
    (hnd : ws.Nodup) (body : World → α → Run) (text : α → String) (items : List α)
    (hbody : ∀ w, ∀ x ∈ items, body w x = .ok (multiWrite env ws (text x) w).1) (w : World) :
    ∃ v, forEach body items w = .ok v ∧ v.calls = w.calls ∧
      ∀ k, v.sink k = if k ∈ ws then w.sink k ++ concat (items.map text) else w.sink k := by
  induction items generalizing w with
  | nil => exact ⟨w, rfl, rfl, fun k => by simp [concat]⟩
  | cons x xs ih =>
    obtain ⟨v, hv, hc, hk⟩ :=
      ih (fun w1 y hy => hbody w1 y (List.mem_cons_of_mem x hy)) (multiWrite env ws (text x) w).1
    refine ⟨v, ?_, ?_, fun k => ?_⟩
    · unfold forEach; rw [hbody w x (List.mem_cons_self x xs)]; exact hv
    · rw [hc, multiWrite_calls]
    · rw [hk k, (multiWrite_sink env hfw ws hnd (text x) w).2 k]
      by_cases hm : k ∈ ws <;> simp [hm, concat, String.append_assoc]

/-- Structured mode with JSONOutput off, a writer over distinct sinks whose
writes succeed and an error-free item sequence whose payloads decode to the
records rs: processBBQDomain returns and every sink of the writer has
received, in arrival order, bbqLine of every record. -/
theorem processBBQDomain_plain (env : Env) (opts : Options) (ws : List Sink)
    (rs : List BBQData) (w : World) (hj : opts.JSONOutput = false)
    (hw : opts.outputWriter = some ws) (hnd : ws.Nodup) (hfw : env.fileWriteErr = none)
    (hrs : (env.getBBQSubdomains (request opts)).map (fun it => (it.Error, env.unmarshal it.Data))
      = rs.map (fun r => (none, .ok r))) :
    ∃ v, processBBQDomain env opts w = .ok v ∧
      ∀ k, v.sink k = if k ∈ ws then w.sink k ++ concat (rs.map (bbqLine env opts))
        else w.sink k := by
  have hgood : ∀ (items : List BBQResult) (rs : List BBQData),
      items.map (fun it => (it.Error, env.unmarshal it.Data)) = rs.map (fun r => (none, .ok r)) →
      (∀ it ∈ items, ∃ r, it.Error = none ∧ env.unmarshal it.Data = .ok r) ∧
      items.map (fun it => match env.unmarshal it.Data with
        | .ok r => bbqLine env opts r
        | .error _ => "") = rs.map (bbqLine env opts) := by
    intro items
    induction items with
    | nil =>
      intro rs h
      cases rs with
      | nil => exact ⟨fun it hit => (by cases hit), rfl⟩
      | cons r rs => simp at h
    | cons it items ih =>
      intro rs h
      cases rs with
      | nil => simp at h
      | cons r rs =>
        simp only [List.map_cons, List.cons.injEq, Prod.mk.injEq] at h
        obtain ⟨h1, h2⟩ := ih rs h.2
        refine ⟨fun it1 hit1 => ?_, ?_⟩
        · rcases List.mem_cons.mp hit1 with rfl | hm
          · exact ⟨r, h.1.1, h.1.2⟩
          · exact h1 it1 hm
        · simp only [List.map_cons, h.1.2, h2]
  obtain ⟨hg, hmap⟩ := hgood _ rs hrs
  obtain ⟨v, hv, _, hk⟩ := forEach_write env hfw ws hnd (processBBQDomainItem env opts)
    (fun it => match env.unmarshal it.Data with
      | .ok r => bbqLine env opts r
      | .error _ => "")
    (env.getBBQSubdomains (request opts))
    (fun w1 it hit => by
      obtain ⟨r, he, hr⟩ := hg it hit
      simp only [processBBQDomainItem, he, hj, hr, bbqLine, hw, Fprintf]
      by_cases hf : env.applyFilter r opts.filter = true
      · by_cases hl : Sprintf (env.extractOutput r opts.filter) = ""
        · simp [hf, hl, multiWrite_empty env hfw]
        · have he2 := (multiWrite_sink env hfw ws hnd
            (Sprintf (env.extractOutput r opts.filter) ++ "\n") w1).1
          rcases hm : multiWrite env ws
            (Sprintf (env.extractOutput r opts.filter) ++ "\n") w1 with ⟨w2, e⟩
          rw [hm] at he2
          simp only [] at he2
          subst he2
          simp [hf, hl, hm]
      · simp [hf, multiWrite_empty env hfw])
    (w.call (.GetBBQSubdomains (request opts)))
  refine ⟨v, hv, fun k => ?_⟩
  rw [hk k, hmap]
  rfl

theorem doPrintf_plain (cs : List Char) (h : '%' ∉ cs) (fuel : Nat) (hf : cs.length < fuel) :
    doPrintf fuel cs = cs := by
  induction cs generalizing fuel with
  | nil => cases fuel <;> simp [doPrintf] at hf ⊢
  | cons c cs ih =>
    cases fuel with
    | zero => simp at hf
    | succ n =>
      have hc : c ≠ '%' := fun hc => h (hc ▸ List.mem_cons_self c cs)
      simp only [doPrintf, hc, if_false]
      rw [ih (fun hm => h (List.mem_cons_of_mem c hm)) n (by simpa using hf)]

/-- A format without a percent sign is printed as it is. -/
theorem Sprintf_plain (format : String) (h : '%' ∉ format.data) : Sprintf format = format := by
  cases format with
  | mk cs =>
    show String.mk (doPrintf (cs.length + 1) cs) = String.mk cs
    rw [doPrintf_plain cs h _ (Nat.lt_succ_self cs.length)]

/-! ## The processors on concrete streams -/

/-- C1 (plain-mode stdout) on the code, at an input with an output file: for the
domain example.com, the one error-free item with label www and the output file
out.txt, the run returns and standard output holds the line www.example.com
twice, while the output file holds it once. -/
theorem processDomain_stdout_with_file :
    fileOpts.JSONOutput = false ∧
    plainEnv.getSubdomains (request fileOpts)
      = [{ Subdomain := "www", Reader := none, Error := none }] ∧
    RunEnumeration plainEnv fileOpts World.init
      = .ok { stdout := "www.example.com\nwww.example.com\n",
              outFile := "www.example.com\n",
              log := [],
              calls := [.GetSubdomains { Domain := "example.com", OutputFormat := "" }],
              scanned := [] } ∧
    processDomain plainEnv
        { fileOpts with outputFile := some "out.txt",
                        outputWriter := some [Sink.stdout, Sink.outputFile] } World.init
      = .ok { stdout := "www.example.com\nwww.example.com\n",
              outFile := "www.example.com\n",
              log := [],
              calls := [.GetSubdomains { Domain := "example.com", OutputFormat := "" }],
              scanned := [] } :=
  ⟨rfl, rfl, rfl, rfl⟩

/-- C7 (plain-mode output file and empty labels) on the code: for the domain
example.com, the items www and the empty label, and the output file out.txt,
the run returns; the item with the empty label has put the line .example.com
both into the output file and on standard output. -/
theorem processDomain_empty_label_with_file :
    fileOpts.JSONOutput = false ∧ fileOpts.Output ≠ "" ∧
    emptyLabelEnv.getSubdomains (request fileOpts)
      = [{ Subdomain := "www", Reader := none, Error := none },
         { Subdomain := "", Reader := none, Error := none }] ∧
    RunEnumeration emptyLabelEnv fileOpts World.init
      = .ok { stdout := "www.example.com\nwww.example.com\n.example.com\n",
              outFile := "www.example.com\n.example.com\n",
              log := [],
              calls := [.GetSubdomains { Domain := "example.com", OutputFormat := "" }],
              scanned := [] } :=
  ⟨rfl, by decide, rfl, rfl⟩

/-- C5 (structured filter and projection) on the code: for one error-free item
whose payload decodes to a record that passes the filter and whose projected
line is 100% Bounty, the run returns and standard output holds the line
100%!B(MISSING)ounty: the projected line went through fmt.Sprintf as a
format. -/
theorem processBBQDomain_percent :
    bbqOpts.JSONOutput = false ∧
    bbqEnv.applyFilter [("program_name", "100% Bounty")] bbqOpts.filter = true ∧
    bbqEnv.extractOutput [("program_name", "100% Bounty")] bbqOpts.filter = "100% Bounty" ∧
    RunEnumeration bbqEnv bbqOpts World.init
      = .ok { stdout := "100%!B(MISSING)ounty\n",
              outFile := "",
              log := [],
              calls := [.GetBBQSubdomains { Domain := "example.com", OutputFormat := "" }],
              scanned := [] } :=
  ⟨rfl, rfl, rfl, rfl⟩

end ChaosClient
